import Mathlib

/-!
Verification of the CoverAI job-extraction content script
(`src/content/contentScript.js`, the multi-selector variant).

The script is embedded shallowly: the live DOM is modelled as an abstract
`Document` mapping selector strings to query results (a query can throw,
return no element, or return an element with optional `innerText`,
`textContent`, meta `content` and `data-company` attributes), plus the list
of elements matched by `querySelectorAll('p, div')` and the current
`window.location` hostname / href.  All string-processing functions
(`cleanText`, trimming, the selector loops) are translated from the
JavaScript source; JS strings are modelled as Lean `String`s (`.length`
counts characters, which agrees with JS code-unit counts on the BMP text
involved here).
-/

namespace CoverAI

/-- The JavaScript whitespace class: the characters matched by `\s` in a
JS regular expression and removed by `String.prototype.trim`. -/
def isJsSpace (c : Char) : Bool :=
  c == ' ' || c == '\t' || c == '\n' || c == '\r' || c == '\x0b' || c == '\x0c' ||
  c == '\u00A0' || c == '\u1680' ||
  (decide (0x2000 ≤ c.toNat) && decide (c.toNat ≤ 0x200a)) ||
  c == '\u2028' || c == '\u2029' || c == '\u202F' || c == '\u205F' ||
  c == '\u3000' || c == '\uFEFF'

/-- The character class `[\s·•\-|]` used by `cleanText` to strip leading and
trailing separator glyphs. -/
def isSepGlyph (c : Char) : Bool :=
  isJsSpace c || c == '·' || c == '•' || c == '-' || c == '|'

/-- Drop a trailing run of characters satisfying `q` (helper for modelling
`trim` and the `[...]+$` regex replacement). -/
def dropEnd (q : Char → Bool) (l : List Char) : List Char :=
  (l.reverse.dropWhile q).reverse

/-- `String.prototype.trim`: remove leading and trailing JS whitespace. -/
def jsTrim (s : String) : String :=
  String.mk (dropEnd isJsSpace (s.toList.dropWhile isJsSpace))

/-- Global regex replacement of every maximal run of characters satisfying
`p` by the single character `r` (the semantics of `.replace(/X+/g, r)`).
`inRun` records whether the previous input character was part of a run. -/
def collapseRunsAux (p : Char → Bool) (r : Char) : Bool → List Char → List Char
  | _, [] => []
  | inRun, c :: cs =>
    if p c then
      (if inRun then collapseRunsAux p r true cs
       else r :: collapseRunsAux p r true cs)
    else c :: collapseRunsAux p r false cs

/-- `cleanText` from the content script:
```
if (!text) return '';
return text
    .replace(/\n+/g, ' ')
    .replace(/\s+/g, ' ')
    .replace(/^[\s·•\-|]+/, '')
    .replace(/[\s·•\-|]+$/, '')
    .trim();
``` -/
def cleanText (text : String) : String :=
  if text = "" then ""
  else
    let l1 := collapseRunsAux (fun c => c == '\n') ' ' false text.toList
    let l2 := collapseRunsAux isJsSpace ' ' false l1
    let l3 := l2.dropWhile isSepGlyph
    let l4 := dropEnd isSepGlyph l3
    jsTrim (String.mk l4)

/-- A DOM element, restricted to the properties the content script reads:
`innerText`, `textContent`, the meta `content` property and the
`data-company` attribute.  `none` models `undefined` / `null`. -/
structure Element where
  innerText : Option String
  textContent : Option String
  content : Option String
  dataCompany : Option String
deriving DecidableEq

/-- Result of `document.querySelector(sel)`: the call can throw (malformed
selector), return `null`, or return an element. -/
inductive QueryResult where
  | qthrow : QueryResult
  | qnull : QueryResult
  | qfound : Element → QueryResult
deriving DecidableEq

/-- The page as the content script sees it: `querySelector` behaviour per
selector string, the element list returned by `querySelectorAll('p, div')`
(in document order), and the current `window.location`. -/
structure Document where
  query : String → QueryResult
  pdivs : List Element
  hostname : String
  href : String

/-- `element.innerText?.trim() || element.textContent?.trim() || ''`. -/
def elemText (el : Element) : String :=
  let t1 := match el.innerText with
    | some s => jsTrim s
    | none => ""
  if t1 ≠ "" then t1
  else match el.textContent with
    | some s => jsTrim s
    | none => ""

/-- `extractText` from the content script, on a selector list: try each
selector in order inside a `try`/`catch`; a throwing selector or a missing
element is skipped; the first element whose text is non-empty wins;
otherwise return `''`.  (For a single-string argument the script wraps it
in a one-element array first.) -/
def extractText (doc : Document) : List String → String
  | [] => ""
  | selector :: rest =>
    match doc.query selector with
    | QueryResult.qthrow => extractText doc rest
    | QueryResult.qnull => extractText doc rest
    | QueryResult.qfound element =>
      let text := elemText element
      if text.length > 0 then text else extractText doc rest

/-- One JobRecord, the structured result of an extraction. -/
structure JobRecord where
  title : String
  company : String
  description : String
  location : String
  url : String
  source : String
deriving DecidableEq

/-- `isValidJobData`: `data.description && data.description.length > 50`. -/
def isValidJobData (data : JobRecord) : Bool :=
  decide (data.description ≠ "" ∧ data.description.length > 50)

/-- A registry entry: one ordered list of candidate selectors per field. -/
structure SelectorSet where
  title : List String
  company : List String
  description : List String
  location : List String
deriving DecidableEq

/-- The `'linkedin.com'` entry of `SITE_SELECTORS`. -/
def linkedinSelectors : SelectorSet where
  title := [".job-details-jobs-unified-top-card__job-title h1",
    ".job-details-jobs-unified-top-card__job-title",
    ".jobs-unified-top-card__job-title",
    ".t-24.job-details-jobs-unified-top-card__job-title",
    "h1.topcard__title",
    ".jobs-details__main-content h1",
    "h1[class*=\"job-title\"]",
    ".job-view-layout h1"]
  company := [".job-details-jobs-unified-top-card__company-name a",
    ".job-details-jobs-unified-top-card__company-name",
    ".jobs-unified-top-card__company-name a",
    ".jobs-unified-top-card__company-name",
    ".topcard__org-name-link",
    ".jobs-details__main-content a[data-tracking-control-name*=\"company\"]",
    "a[class*=\"company-name\"]",
    ".job-view-layout a[href*=\"/company/\"]"]
  description := [".jobs-description__content",
    ".jobs-box__html-content",
    ".jobs-description",
    "#job-details",
    ".job-view-layout .description",
    "[class*=\"description__text\"]",
    ".jobs-description-content__text"]
  location := [".job-details-jobs-unified-top-card__bullet",
    ".jobs-unified-top-card__bullet",
    ".topcard__flavor--bullet",
    ".job-details-jobs-unified-top-card__primary-description-container span"]

/-- The `'jobright.ai'` entry of `SITE_SELECTORS`. -/
def jobrightSelectors : SelectorSet where
  title := ["h1[class*=\"title\"]", ".job-title", "[class*=\"JobTitle\"]", "h1",
    "[data-testid=\"job-title\"]", ".job-header h1", ".job-details h1"]
  company := ["[class*=\"company-name\"]", "[class*=\"CompanyName\"]", ".company-name",
    "a[href*=\"/company/\"]", "[data-testid=\"company-name\"]",
    ".job-header [class*=\"company\"]", ".employer-name"]
  description := ["[class*=\"description\"]", "[class*=\"Description\"]", ".job-description",
    "#job-description", "[data-testid=\"job-description\"]",
    ".job-details [class*=\"content\"]", "article", ".job-content"]
  location := ["[class*=\"location\"]", "[class*=\"Location\"]", ".job-location",
    "[data-testid=\"location\"]"]

/-- The `'indeed.com'` entry of `SITE_SELECTORS`. -/
def indeedSelectors : SelectorSet where
  title := [".jobsearch-JobInfoHeader-title", "[data-testid=\"jobsearch-JobInfoHeader-title\"]",
    "h1.jobsearch-JobInfoHeader-title", ".icl-u-xs-mb--xs h1"]
  company := [".jobsearch-InlineCompanyRating-companyHeader a",
    ".jobsearch-InlineCompanyRating-companyHeader",
    "[data-testid=\"inlineHeader-companyName\"]",
    ".jobsearch-CompanyInfoWithoutHeaderImage a"]
  description := ["#jobDescriptionText", ".jobsearch-jobDescriptionText",
    "[id=\"jobDescriptionText\"]"]
  location := [".jobsearch-JobInfoHeader-subtitle > div", "[data-testid=\"job-location\"]",
    ".jobsearch-CompanyInfoWithoutHeaderImage div"]

/-- The `'greenhouse.io'` entry of `SITE_SELECTORS`. -/
def greenhouseSelectors : SelectorSet where
  title := [".app-title", "h1.heading", "h1"]
  company := [".company-name", "[class*=\"company\"]"]
  description := ["#content", ".content", "[class*=\"description\"]"]
  location := [".location", "[class*=\"location\"]"]

/-- The `'lever.co'` entry of `SITE_SELECTORS`. -/
def leverSelectors : SelectorSet where
  title := [".posting-headline h2", "h2"]
  company := [".posting-headline .company-name", "[class*=\"company\"]"]
  description := [".posting-page .content", ".content", "[class*=\"description\"]"]
  location := [".posting-categories .location", ".location"]

/-- The `'myworkdayjobs.com'` entry of `SITE_SELECTORS`. -/
def myworkdayjobsSelectors : SelectorSet where
  title := ["h2[data-automation-id=\"jobPostingHeader\"]", "h2"]
  company := ["[data-automation-id=\"company\"]", "[class*=\"company\"]"]
  description := ["[data-automation-id=\"jobPostingDescription\"]", "[class*=\"description\"]"]
  location := ["[data-automation-id=\"locations\"]", "[class*=\"location\"]"]

/-- The `'glassdoor.com'` entry of `SITE_SELECTORS`. -/
def glassdoorSelectors : SelectorSet where
  title := ["[data-test=\"job-title\"]", "h1", "[class*=\"JobTitle\"]"]
  company := ["[data-test=\"employer-name\"]", "[class*=\"employer\"]", "[class*=\"company\"]"]
  description := [".jobDescriptionContent", "[data-test=\"description\"]",
    "[class*=\"description\"]"]
  location := ["[data-test=\"location\"]", "[class*=\"location\"]"]

/-- `SITE_SELECTORS`, in `Object.entries` (insertion) order. -/
def SITE_SELECTORS : List (String × SelectorSet) :=
  [("linkedin.com", linkedinSelectors),
   ("jobright.ai", jobrightSelectors),
   ("indeed.com", indeedSelectors),
   ("greenhouse.io", greenhouseSelectors),
   ("lever.co", leverSelectors),
   ("myworkdayjobs.com", myworkdayjobsSelectors),
   ("glassdoor.com", glassdoorSelectors)]

/-- JS `String.prototype.replace` with a plain-string pattern and empty
replacement: remove the first occurrence of `pat`, if any. -/
def replaceFirstAux (pat : List Char) : List Char → List Char
  | [] => []
  | c :: cs =>
    if pat.isPrefixOf (c :: cs) then (c :: cs).drop pat.length
    else c :: replaceFirstAux pat cs

/-- `s.replace(pat, '')` for a plain-string `pat`. -/
def replaceFirst (s pat : String) : String :=
  String.mk (replaceFirstAux pat.toList s.toList)

/-- JS `String.prototype.includes`: substring containment. -/
def containsSubAux (needle : List Char) : List Char → Bool
  | [] => needle.isEmpty
  | c :: cs => needle.isPrefixOf (c :: cs) || containsSubAux needle cs

/-- `s.includes(search)`. -/
def jsIncludes (s search : String) : Bool :=
  containsSubAux search.toList s.toList

/-- The normalized host key used by `getSiteSelectors`:
`site.replace('.com', '').replace('.io', '').replace('.co', '').replace('.ai', '')`. -/
def stripKey (site : String) : String :=
  replaceFirst (replaceFirst (replaceFirst (replaceFirst site ".com") ".io") ".co") ".ai"

/-- The `for (const [site, selectors] of Object.entries(SITE_SELECTORS))`
loop of `getSiteSelectors`. -/
def getSiteSelectorsGo (hostname : String) : List (String × SelectorSet) → Option SelectorSet
  | [] => none
  | (site, selectors) :: rest =>
    if jsIncludes hostname (stripKey site) then some selectors
    else getSiteSelectorsGo hostname rest

/-- `getSiteSelectors`: first registry entry whose normalized key is a
substring of the current hostname; `null` if none. -/
def getSiteSelectors (hostname : String) : Option SelectorSet :=
  getSiteSelectorsGo hostname SITE_SELECTORS

/-- The meta-tag chain of `extractCompanyFromPage`:
`qs('meta[property="og:site_name"]')?.content || qs('meta[name="author"]')?.content ||
qs('meta[property="article:author"]')?.content`.  An absent element or
`content` (`undefined`) behaves like `''` in the `||` chain and the
truthiness test, so both are modelled as `""`. -/
def metaContent (doc : Document) (sel : String) : String :=
  match doc.query sel with
  | QueryResult.qfound el => el.content.getD ""
  | _ => ""

/-- The value of the `metaCompany` local in `extractCompanyFromPage`. -/
def metaCompany (doc : Document) : String :=
  let a := metaContent doc "meta[property=\"og:site_name\"]"
  if a ≠ "" then a
  else
    let b := metaContent doc "meta[name=\"author\"]"
    if b ≠ "" then b
    else metaContent doc "meta[property=\"article:author\"]"

/-- `companyPatterns` in `extractCompanyFromPage`. -/
def companyPatterns : List String :=
  ["a[href*=\"/company/\"]", "[class*=\"employer\"]", "[class*=\"organization\"]",
   "[data-company]", "[aria-label*=\"company\"]"]

/-- `el.innerText?.trim() || el.getAttribute('data-company') || ''` (a null
attribute behaves like `''`). -/
def patternText (el : Element) : String :=
  let t := match el.innerText with
    | some s => jsTrim s
    | none => ""
  if t ≠ "" then t else el.dataCompany.getD ""

/-- The `for (const pattern of companyPatterns)` loop of
`extractCompanyFromPage`: each probe sits in a `try`/`catch`; a found
element is accepted only when its text length is strictly between 0 and
100, in which case the cleaned text is returned. -/
def companyPatternLoop (doc : Document) : List String → String
  | [] => ""
  | pat :: rest =>
    match doc.query pat with
    | QueryResult.qfound el =>
      let text := patternText el
      if text.length > 0 ∧ text.length < 100 then cleanText text
      else companyPatternLoop doc rest
    | _ => companyPatternLoop doc rest

/-- `extractCompanyFromPage`: meta tags first (any length accepted), then
the attribute/ARIA company patterns, else `''`. -/
def extractCompanyFromPage (doc : Document) : String :=
  let m := metaCompany doc
  if m ≠ "" then cleanText m
  else companyPatternLoop doc companyPatterns

/-- `titleSelectors` in `extractGenericJobData`. -/
def titleSelectors : List String :=
  ["h1", "[class*=\"job-title\"]", "[class*=\"jobtitle\"]", "[class*=\"JobTitle\"]",
   "[data-testid*=\"title\"]", "h2[class*=\"title\"]"]

/-- `companySelectors` in `extractGenericJobData`. -/
def companySelectors : List String :=
  ["[class*=\"company\"]", "[class*=\"employer\"]", "[class*=\"organization\"]",
   "a[href*=\"/company/\"]", "[data-testid*=\"company\"]"]

/-- `descSelectors` in `extractGenericJobData`. -/
def descSelectors : List String :=
  ["[class*=\"description\"]", "[class*=\"job-desc\"]", "#job-description", "article",
   ".content", "[class*=\"details\"]"]

/-- Generic title loop: accept the first element with
`el.innerText?.length < 200 && el.innerText?.length > 2`, cleaned; probes
are wrapped in `try`/`catch`. -/
def titleLoop (doc : Document) : List String → String
  | [] => ""
  | sel :: rest =>
    match doc.query sel with
    | QueryResult.qfound el =>
      match el.innerText with
      | some t => if t.length < 200 ∧ t.length > 2 then cleanText t else titleLoop doc rest
      | none => titleLoop doc rest
    | _ => titleLoop doc rest

/-- Generic company loop: accept the first element with
`el.innerText?.length < 100 && el.innerText?.length > 1`, cleaned. -/
def companyLoop (doc : Document) : List String → String
  | [] => ""
  | sel :: rest =>
    match doc.query sel with
    | QueryResult.qfound el =>
      match el.innerText with
      | some t => if t.length < 100 ∧ t.length > 1 then cleanText t else companyLoop doc rest
      | none => companyLoop doc rest
    | _ => companyLoop doc rest

/-- Generic description loop: accept the first element with
`el.innerText?.length > 100`, trimmed (not glyph-stripped). -/
def descLoop (doc : Document) : List String → String
  | [] => ""
  | sel :: rest =>
    match doc.query sel with
    | QueryResult.qfound el =>
      match el.innerText with
      | some t => if t.length > 100 then jsTrim t else descLoop doc rest
      | none => descLoop doc rest
    | _ => descLoop doc rest

/-- The `allParagraphs.forEach` accumulation in `extractGenericJobData`:
`if (text.length > longestText.length && text.length < 10000) longestText = text`
with `text = el.innerText || ''`. -/
def longestLoop (acc : String) : List Element → String
  | [] => acc
  | el :: rest =>
    let text := (el.innerText).getD ""
    if text.length > acc.length ∧ text.length < 10000 then longestLoop text rest
    else longestLoop acc rest

/-- `extractGenericJobData`: heuristic extraction for unregistered sites,
including the largest-text-block description fallback.  Company comes only
from the `companySelectors` class-name loop. -/
def extractGenericJobData (doc : Document) : JobRecord :=
  let title := titleLoop doc titleSelectors
  let company := companyLoop doc companySelectors
  let description := descLoop doc descSelectors
  let description :=
    if description = "" then
      let longestText := longestLoop "" doc.pdivs
      if longestText.length > 200 then longestText else description
    else description
  { title := title, company := company, description := description,
    location := "", url := doc.href, source := "auto-generic" }

/-- `extractJobData`: registered-site extraction via `getSiteSelectors`,
with `cleanText` on title and company, the (twice-written) company
fallback to `extractCompanyFromPage`, and `url: window.location.href`;
falls back to `extractGenericJobData` when no registry entry matches. -/
def extractJobData (doc : Document) : JobRecord :=
  match getSiteSelectors doc.hostname with
  | none => extractGenericJobData doc
  | some selectors =>
    let title := extractText doc selectors.title
    let company := extractText doc selectors.company
    let description := extractText doc selectors.description
    let location := extractText doc selectors.location
    let title := cleanText title
    let company := cleanText company
    let company := if company = "" then extractCompanyFromPage doc else company
    let company := if company = "" then extractCompanyFromPage doc else company
    { title := title, company := company, description := description,
      location := location, url := doc.href, source := "auto" }

/-- Observable events of one `init` page-load cycle: the `setTimeout`
suspensions, the `extractJobData` calls, and the `sendJobData` handoff. -/
inductive TraceEvent where
  | delayEv : Nat → TraceEvent
  | extractEv : TraceEvent
  | sendEv : JobRecord → TraceEvent
deriving DecidableEq

/-- `init`: wait 2000ms, extract; if the record is invalid wait another
2000ms and extract once more (the page state may have changed, so the two
attempts run against the documents `d1` and `d2`); send the record iff it
is valid.  Returns the event trace of the cycle and the record handed to
`sendJobData`, if any. -/
def init (d1 d2 : Document) : List TraceEvent × Option JobRecord :=
  let evs0 := [TraceEvent.delayEv 2000, TraceEvent.extractEv]
  let jobData := extractJobData d1
  let step :=
    if isValidJobData jobData = false then
      (evs0 ++ [TraceEvent.delayEv 2000, TraceEvent.extractEv], extractJobData d2)
    else (evs0, jobData)
  if isValidJobData step.2 then (step.1 ++ [TraceEvent.sendEv step.2], some step.2)
  else (step.1, none)

/-- Is an event a `sendJobData` call? -/
def isSendEv : TraceEvent → Bool
  | TraceEvent.sendEv _ => true
  | _ => false

/-- Is an event an `extractJobData` call? -/
def isExtractEv : TraceEvent → Bool
  | TraceEvent.extractEv => true
  | _ => false

/-- Outcome of one `extractText` probe: `some t` iff the query returns an
element whose text is non-empty, where `t` is that text. -/
def selResult (doc : Document) (selector : String) : Option String :=
  match doc.query selector with
  | QueryResult.qfound element =>
    let text := elemText element
    if text.length > 0 then some text else none
  | _ => none

/-- Outcome of one `extractCompanyFromPage` pattern probe: `some c` iff
the element is found and its text length is strictly between 0 and 100,
where `c` is the cleaned text. -/
def patternProbe (doc : Document) (pat : String) : Option String :=
  match doc.query pat with
  | QueryResult.qfound el =>
    let text := patternText el
    if text.length > 0 ∧ text.length < 100 then some (cleanText text) else none
  | _ => none

/-- Outcome of one generic description probe: `some d` iff the element is
found with `innerText` longer than 100, where `d` is the trimmed text. -/
def descAccept (doc : Document) (sel : String) : Option String :=
  match doc.query sel with
  | QueryResult.qfound el =>
    match el.innerText with
    | some t => if t.length > 100 then some (jsTrim t) else none
    | none => none
  | _ => none

/-- Outcome of one generic company probe: `some c` iff the element is
found with `innerText` length strictly between 1 and 100. -/
def companyAccept (doc : Document) (sel : String) : Option String :=
  match doc.query sel with
  | QueryResult.qfound el =>
    match el.innerText with
    | some t => if t.length < 100 ∧ t.length > 1 then some (cleanText t) else none
    | none => none
  | _ => none

/-! ### Helper lemmas about the selector loops -/

theorem extractText_eq_findSome (doc : Document) :
    ∀ sels : List String, extractText doc sels = ((sels.findSome? (selResult doc)).getD "") := by
  intro sels
  induction sels with
  | nil => rfl
  | cons s rest ih =>
    simp only [extractText, selResult, List.findSome?_cons]
    cases doc.query s with
    | qthrow => exact ih
    | qnull => exact ih
    | qfound el =>
      by_cases h : (elemText el).length > 0
      · simp [h]
      · simp [h, ih]

theorem companyPatternLoop_eq_findSome (doc : Document) :
    ∀ pats : List String,
      companyPatternLoop doc pats = ((pats.findSome? (patternProbe doc)).getD "") := by
  intro pats
  induction pats with
  | nil => rfl
  | cons p rest ih =>
    simp only [companyPatternLoop, patternProbe, List.findSome?_cons]
    cases doc.query p with
    | qthrow => exact ih
    | qnull => exact ih
    | qfound el =>
      by_cases h : (patternText el).length > 0 ∧ (patternText el).length < 100
      · simp [h]
      · simp [h, ih]

theorem descLoop_eq_empty (doc : Document) :
    ∀ sels : List String, (∀ sel ∈ sels, descAccept doc sel = none) →
      descLoop doc sels = "" := by
  intro sels
  induction sels with
  | nil => intro _; rfl
  | cons s rest ih =>
    intro h
    have hs := h s (List.mem_cons_self s rest)
    have hrest : ∀ sel ∈ rest, descAccept doc sel = none :=
      fun sel hm => h sel (List.mem_cons_of_mem s hm)
    have hr := ih hrest
    cases hq : doc.query s with
    | qthrow => simp [descLoop, hq, hr]
    | qnull => simp [descLoop, hq, hr]
    | qfound el =>
      cases hit : el.innerText with
      | none => simp [descLoop, hq, hit, hr]
      | some t =>
        have hl : ¬t.length > 100 := by
          intro hl
          simp [descAccept, hq, hit, hl] at hs
        simp [descLoop, hq, hit, hl, hr]

theorem companyLoop_eq_empty (doc : Document) :
    ∀ sels : List String, (∀ sel ∈ sels, companyAccept doc sel = none) →
      companyLoop doc sels = "" := by
  intro sels
  induction sels with
  | nil => intro _; rfl
  | cons s rest ih =>
    intro h
    have hs := h s (List.mem_cons_self s rest)
    have hrest : ∀ sel ∈ rest, companyAccept doc sel = none :=
      fun sel hm => h sel (List.mem_cons_of_mem s hm)
    have hr := ih hrest
    cases hq : doc.query s with
    | qthrow => simp [companyLoop, hq, hr]
    | qnull => simp [companyLoop, hq, hr]
    | qfound el =>
      cases hit : el.innerText with
      | none => simp [companyLoop, hq, hit, hr]
      | some t =>
        have hl : ¬(t.length < 100 ∧ t.length > 1) := by
          intro hl
          simp [companyAccept, hq, hit, hl] at hs
        simp [companyLoop, hq, hit, hl, hr]

theorem stringLengthPos (s : String) (h : s ≠ "") : s.length > 0 := by
  cases s with
  | mk data =>
    have hd : data ≠ [] := by
      intro hnil
      subst hnil
      exact h rfl
    exact List.length_pos.mpr hd

/-! ### Claim theorems -/

/-- A manually entered record holding only a description, used to probe
the validity boundary. -/
def recordWithDescription (d : String) : JobRecord where
  title := ""
  company := ""
  description := d
  location := ""
  url := ""
  source := "manual"

/-- **C3**: `isValidJobData` holds iff the description is non-empty and
its length exceeds 50; a 50-character description is invalid and a
51-character one is valid. -/
theorem C3_isValidJobData_threshold :
    (∀ data : JobRecord,
      isValidJobData data = true ↔ (data.description ≠ "" ∧ data.description.length > 50))
    ∧ isValidJobData (recordWithDescription (String.mk (List.replicate 50 'a'))) = false
    ∧ isValidJobData (recordWithDescription (String.mk (List.replicate 51 'a'))) = true := by
  refine ⟨fun data => ?_, by decide, by decide⟩
  simp [isValidJobData]

/-- **C9**: on both the registered-site path and the generic fallback the
`url` field equals the current page location (`window.location.href`),
whatever the page content is. -/
theorem C9_url_is_page_location (doc : Document) :
    (extractJobData doc).url = doc.href ∧ (extractGenericJobData doc).url = doc.href := by
  constructor
  · cases h : getSiteSelectors doc.hostname with
    | none => simp [extractJobData, h, extractGenericJobData]
    | some ss => simp [extractJobData, h]
  · simp [extractGenericJobData]

/-- **C2**: `extractText` is total (never throws); it returns the text of
the first selector that resolves to an element with non-empty text —
selectors whose query throws are skipped — and `""` when no selector
succeeds; in particular, when the first selector throws and the second
matches non-empty text, the second's text is returned. -/
theorem C2_extractText_skips_failures :
    (∀ (doc : Document) (sels : List String),
      extractText doc sels = ((sels.findSome? (selResult doc)).getD ""))
    ∧ (∀ (doc : Document) (sels : List String),
      (∀ sel ∈ sels, selResult doc sel = none) → extractText doc sels = "")
    ∧ (∀ (doc : Document) (s1 s2 : String) (el : Element),
      doc.query s1 = QueryResult.qthrow → doc.query s2 = QueryResult.qfound el →
      elemText el ≠ "" → extractText doc [s1, s2] = elemText el) := by
  refine ⟨extractText_eq_findSome, fun doc sels h => ?_, fun doc s1 s2 el h1 h2 hne => ?_⟩
  · rw [extractText_eq_findSome]
    rw [List.findSome?_eq_none_iff.mpr h]
    rfl
  · have hpos : (elemText el).length > 0 := stringLengthPos _ hne
    simp [extractText, h1, h2, hpos]

/-- An element whose `innerText` is `"Hello World"`. -/
def helloElement : Element where
  innerText := some "Hello World"
  textContent := none
  content := none
  dataCompany := none

/-- A page where the selector `"bad[["` makes `querySelector` throw and
`".good"` resolves to `helloElement`; every other query returns `null`. -/
def docTwoSelectors : Document where
  query := fun s =>
    if s = "bad[[" then QueryResult.qthrow
    else if s = ".good" then QueryResult.qfound helloElement
    else QueryResult.qnull
  pdivs := []
  hostname := "example.org"
  href := "https://example.org/job"

/-- Witness for C2: with a throwing first selector and a matching second
one, `extractText` returns the second selector's text. -/
theorem C2_extractText_skips_failures_witness :
    extractText docTwoSelectors ["bad[[", ".good"] = "Hello World" := by
  have h := C2_extractText_skips_failures.2.2 docTwoSelectors "bad[[" ".good" helloElement
    (by decide) (by decide) (by decide)
  exact h.trans (by decide)

/-- **C6**: registry lookup is substring matching of the current hostname
against TLD-stripped registry keys — `jobs.linkedin.com` hits the
`linkedin.com` entry — and a lookup miss makes `extractJobData` take the
generic fallback, tagging the record `auto-generic` instead of `auto`. -/
theorem C6_site_registry_lookup :
    getSiteSelectors "jobs.linkedin.com" = some linkedinSelectors
    ∧ (∀ hostname : String,
        (∀ p ∈ SITE_SELECTORS, jsIncludes hostname (stripKey p.1) = false) →
        getSiteSelectors hostname = none)
    ∧ (∀ (hostname : String) (ss : SelectorSet), getSiteSelectors hostname = some ss →
        ∃ p ∈ SITE_SELECTORS, jsIncludes hostname (stripKey p.1) = true ∧ p.2 = ss)
    ∧ (∀ doc : Document, getSiteSelectors doc.hostname = none →
        extractJobData doc = extractGenericJobData doc
        ∧ (extractJobData doc).source = "auto-generic")
    ∧ (∀ (doc : Document) (ss : SelectorSet), getSiteSelectors doc.hostname = some ss →
        (extractJobData doc).source = "auto") := by
  refine ⟨by decide, fun hostname h => ?_, fun hostname ss h => ?_, fun doc h => ?_,
    fun doc ss h => ?_⟩
  · have go : ∀ l : List (String × SelectorSet),
        (∀ p ∈ l, jsIncludes hostname (stripKey p.1) = false) →
        getSiteSelectorsGo hostname l = none := by
      intro l
      induction l with
      | nil => intro _; rfl
      | cons p rest ih =>
        intro hall
        have hp := hall p (List.mem_cons_self p rest)
        obtain ⟨site, selectors⟩ := p
        simp only [getSiteSelectorsGo]
        rw [if_neg (by simp [hp])]
        exact ih fun q hq => hall q (List.mem_cons_of_mem _ hq)
    exact go SITE_SELECTORS h
  · have go : ∀ l : List (String × SelectorSet), getSiteSelectorsGo hostname l = some ss →
        ∃ p ∈ l, jsIncludes hostname (stripKey p.1) = true ∧ p.2 = ss := by
      intro l
      induction l with
      | nil => intro hc; exact absurd hc (by simp [getSiteSelectorsGo])
      | cons p rest ih =>
        intro hc
        obtain ⟨site, selectors⟩ := p
        by_cases hm : jsIncludes hostname (stripKey site) = true
        · refine ⟨(site, selectors), List.mem_cons_self _ _, hm, ?_⟩
          simp only [getSiteSelectorsGo] at hc
          rw [if_pos hm] at hc
          exact Option.some.inj hc
        · simp only [getSiteSelectorsGo] at hc
          rw [if_neg hm] at hc
          obtain ⟨q, hq, hqi, hqe⟩ := ih hc
          exact ⟨q, List.mem_cons_of_mem _ hq, hqi, hqe⟩
    exact go SITE_SELECTORS h
  · constructor
    · simp [extractJobData, h]
    · simp [extractJobData, h, extractGenericJobData]
  · simp [extractJobData, h]

/-- A page on an unregistered host where every query returns `null` and
there are no paragraph elements. -/
def docUnregistered : Document where
  query := fun _ => QueryResult.qnull
  pdivs := []
  hostname := "jobs.acme-careers.example"
  href := "https://jobs.acme-careers.example/post/1"

/-- Witness for C6: on an unregistered hostname the lookup misses and
`extractJobData` produces its record through the generic fallback with
source `auto-generic`. -/
theorem C6_site_registry_lookup_witness :
    getSiteSelectors "jobs.acme-careers.example" = none
    ∧ (extractJobData docUnregistered).source = "auto-generic" := by
  have h2 := C6_site_registry_lookup.2.1 "jobs.acme-careers.example" (by decide)
  have h4 := (C6_site_registry_lookup.2.2.2.1 docUnregistered h2).2
  exact ⟨h2, h4⟩

/-- **C8**: on the registered-site path, glyph-stripping normalization
(`cleanText`) is applied to the title (and to the company before its
fallback), while the description and location are exactly the field
extractor's output, untouched by `cleanText`. -/
theorem C8_cleanText_only_title_company (doc : Document) (ss : SelectorSet)
    (h : getSiteSelectors doc.hostname = some ss) :
    (extractJobData doc).description = extractText doc ss.description
    ∧ (extractJobData doc).location = extractText doc ss.location
    ∧ (extractJobData doc).title = cleanText (extractText doc ss.title)
    ∧ (cleanText (extractText doc ss.company) ≠ "" →
        (extractJobData doc).company = cleanText (extractText doc ss.company)) := by
  refine ⟨?_, ?_, ?_, fun hc => ?_⟩
  · simp [extractJobData, h]
  · simp [extractJobData, h]
  · simp [extractJobData, h]
  · simp [extractJobData, h, hc]

/-- An element whose `innerText` spans two lines. -/
def twoLineElement : Element where
  innerText := some "Line one\nLine two"
  textContent := none
  content := none
  dataCompany := none

/-- A LinkedIn page whose description selector matches `twoLineElement`;
all other queries return `null`. -/
def docTwoLineDescription : Document where
  query := fun s =>
    if s = ".jobs-description__content" then QueryResult.qfound twoLineElement
    else QueryResult.qnull
  pdivs := []
  hostname := "www.linkedin.com"
  href := "https://www.linkedin.com/jobs/view/1"

/-- Witness for C8: the extracted description keeps its interior line
break, which `cleanText` would have collapsed. -/
theorem C8_cleanText_only_title_company_witness :
    (extractJobData docTwoLineDescription).description = "Line one\nLine two"
    ∧ cleanText "Line one\nLine two" = "Line one Line two" := by
  have h := (C8_cleanText_only_title_company docTwoLineDescription linkedinSelectors
    (by decide)).1
  exact ⟨h.trans (by decide), by decide⟩

/-- **C1**: in every `init` page-load cycle, one extraction attempt
follows the settle delay; a second attempt follows a second fixed delay
exactly when the first result is invalid; `sendJobData` is called at most
once per cycle and only with a valid record; when both attempts are
invalid the cycle ends with no delivery (and, the functions being total,
no error). -/
theorem C1_init_cycle (d1 d2 : Document) :
    ((init d1 d2).1.countP isSendEv ≤ 1)
    ∧ (∀ r : JobRecord, TraceEvent.sendEv r ∈ (init d1 d2).1 → isValidJobData r = true)
    ∧ (isValidJobData (extractJobData d1) = true →
        (init d1 d2).1 = [TraceEvent.delayEv 2000, TraceEvent.extractEv,
          TraceEvent.sendEv (extractJobData d1)])
    ∧ (isValidJobData (extractJobData d1) = false →
        isValidJobData (extractJobData d2) = true →
        (init d1 d2).1 = [TraceEvent.delayEv 2000, TraceEvent.extractEv,
          TraceEvent.delayEv 2000, TraceEvent.extractEv,
          TraceEvent.sendEv (extractJobData d2)])
    ∧ (isValidJobData (extractJobData d1) = false →
        isValidJobData (extractJobData d2) = false →
        (init d1 d2).1 = [TraceEvent.delayEv 2000, TraceEvent.extractEv,
          TraceEvent.delayEv 2000, TraceEvent.extractEv]
        ∧ (init d1 d2).2 = none)
    ∧ ((init d1 d2).2 = none ∨
        ∃ r : JobRecord, (init d1 d2).2 = some r ∧ isValidJobData r = true) := by
  cases h1 : isValidJobData (extractJobData d1) with
  | true =>
    refine ⟨?_, ?_, ?_, ?_, ?_, ?_⟩ <;>
      simp [init, h1, isSendEv, isExtractEv, List.countP_cons, List.countP_nil]
  | false =>
    cases h2 : isValidJobData (extractJobData d2) with
    | true =>
      refine ⟨?_, ?_, ?_, ?_, ?_, ?_⟩ <;>
        simp [init, h1, h2, isSendEv, isExtractEv, List.countP_cons, List.countP_nil]
    | false =>
      refine ⟨?_, ?_, ?_, ?_, ?_, ?_⟩ <;>
        simp [init, h1, h2, isSendEv, isExtractEv, List.countP_cons, List.countP_nil]

/-- Witness for C1: on a page with no extractable job data both attempts
are invalid, the full two-attempt trace occurs, and nothing is sent. -/
theorem C1_init_cycle_witness :
    (init docUnregistered docUnregistered).1 =
      [TraceEvent.delayEv 2000, TraceEvent.extractEv,
       TraceEvent.delayEv 2000, TraceEvent.extractEv]
    ∧ (init docUnregistered docUnregistered).2 = none := by
  exact (C1_init_cycle docUnregistered docUnregistered).2.2.2.2.1 (by decide) (by decide)

/-! ### Lemmas about the largest-text-block accumulation -/

theorem longestLoop_ge_acc (l : List Element) :
    ∀ acc : String, acc.length ≤ (longestLoop acc l).length := by
  induction l with
  | nil => intro acc; exact Nat.le_refl _
  | cons el rest ih =>
    intro acc
    simp only [longestLoop]
    by_cases h : ((el.innerText).getD "").length > acc.length
        ∧ ((el.innerText).getD "").length < 10000
    · rw [if_pos h]
      exact Nat.le_trans (Nat.le_of_lt h.1) (ih _)
    · rw [if_neg h]
      exact ih acc

theorem longestLoop_max (l : List Element) :
    ∀ acc : String, ∀ el ∈ l, ((el.innerText).getD "").length < 10000 →
      ((el.innerText).getD "").length ≤ (longestLoop acc l).length := by
  induction l with
  | nil => intro acc el hm; exact absurd hm (List.not_mem_nil el)
  | cons e rest ih =>
    intro acc el hm hlt
    rcases List.mem_cons.mp hm with he | hr
    · subst he
      simp only [longestLoop]
      by_cases h : ((el.innerText).getD "").length > acc.length
          ∧ ((el.innerText).getD "").length < 10000
      · rw [if_pos h]
        exact longestLoop_ge_acc rest _
      · rw [if_neg h]
        have hle : ((el.innerText).getD "").length ≤ acc.length := by
          rcases Nat.lt_or_ge acc.length ((el.innerText).getD "").length with hgt | hle
          · exact absurd ⟨hgt, hlt⟩ h
          · exact hle
        exact Nat.le_trans hle (longestLoop_ge_acc rest acc)
    · simp only [longestLoop]
      by_cases h : ((e.innerText).getD "").length > acc.length
          ∧ ((e.innerText).getD "").length < 10000
      · rw [if_pos h]
        exact ih _ el hr hlt
      · rw [if_neg h]
        exact ih acc el hr hlt

theorem longestLoop_mem (l : List Element) :
    ∀ acc : String, longestLoop acc l = acc ∨
      ∃ el ∈ l, (el.innerText).getD "" = longestLoop acc l
        ∧ (longestLoop acc l).length < 10000 := by
  induction l with
  | nil => intro acc; exact Or.inl rfl
  | cons e rest ih =>
    intro acc
    simp only [longestLoop]
    by_cases h : ((e.innerText).getD "").length > acc.length
        ∧ ((e.innerText).getD "").length < 10000
    · rw [if_pos h]
      rcases ih ((e.innerText).getD "") with heq | ⟨el, hm, hel, hlen⟩
      · exact Or.inr ⟨e, List.mem_cons_self e rest, heq.symm, by rw [heq]; exact h.2⟩
      · exact Or.inr ⟨el, List.mem_cons_of_mem e hm, hel, hlen⟩
    · rw [if_neg h]
      rcases ih acc with heq | ⟨el, hm, hel, hlen⟩
      · exact Or.inl heq
      · exact Or.inr ⟨el, List.mem_cons_of_mem e hm, hel, hlen⟩

/-- **C7**: in the generic fallback, when no description selector yields
`innerText` longer than 100 characters, every `p`/`div` element is
scanned: the accumulated text is the longest `innerText` among those
strictly shorter than 10000 characters (and comes from one of those
elements), and it becomes the description only when longer than 200
characters, the description staying empty otherwise. -/
theorem C7_generic_description_fallback (doc : Document)
    (h : ∀ sel ∈ descSelectors, descAccept doc sel = none) :
    ((extractGenericJobData doc).description =
      (if (longestLoop "" doc.pdivs).length > 200 then longestLoop "" doc.pdivs else ""))
    ∧ (∀ el ∈ doc.pdivs, ((el.innerText).getD "").length < 10000 →
        ((el.innerText).getD "").length ≤ (longestLoop "" doc.pdivs).length)
    ∧ (longestLoop "" doc.pdivs = "" ∨
        ∃ el ∈ doc.pdivs, (el.innerText).getD "" = longestLoop "" doc.pdivs
          ∧ (longestLoop "" doc.pdivs).length < 10000) := by
  have hd : descLoop doc descSelectors = "" := descLoop_eq_empty doc descSelectors h
  refine ⟨?_, longestLoop_max doc.pdivs "", longestLoop_mem doc.pdivs ""⟩
  by_cases hl : (longestLoop "" doc.pdivs).length > 200
  · simp [extractGenericJobData, hd, hl]
  · simp [extractGenericJobData, hd, hl]

/-- An element carrying a 500-character text block. -/
def bigBlockElement : Element where
  innerText := some (String.mk (List.replicate 500 'x'))
  textContent := none
  content := none
  dataCompany := none

/-- A page on an unregistered host whose queries all return `null` but
which contains one large `div` text block. -/
def docBigBlock : Document where
  query := fun _ => QueryResult.qnull
  pdivs := [bigBlockElement]
  hostname := "jobs.acme-careers.example"
  href := "https://jobs.acme-careers.example/post/2"

set_option maxRecDepth 8192 in
/-- Witness for C7: with no matching description selector, the 500-char
`div` block is picked up as the description. -/
theorem C7_generic_description_fallback_witness :
    (extractGenericJobData docBigBlock).description = String.mk (List.replicate 500 'x') := by
  have h := (C7_generic_description_fallback docBigBlock (by decide)).1
  exact h.trans (by decide)

/-- A meta element whose `content` is `"Acme"`. -/
def acmeMetaElement : Element where
  innerText := none
  textContent := none
  content := some "Acme"
  dataCompany := none

/-- An unregistered page exposing an `og:site_name` meta tag naming the
company, whose class-name company selectors all miss. -/
def docMetaOnly : Document where
  query := fun s =>
    if s = "meta[property=\"og:site_name\"]" then QueryResult.qfound acmeMetaElement
    else QueryResult.qnull
  pdivs := []
  hostname := "jobs.acme-careers.example"
  href := "https://jobs.acme-careers.example/post/3"

/-- **C5 counterexample**: on a page whose meta tags do name the company,
the generic fallback extractor still leaves the company empty — the
`og:site_name` / author secondary pass (`extractCompanyFromPage`, which
here would return `"Acme"`) is never attempted by
`extractGenericJobData`. -/
theorem C5_counterexample_no_secondary_pass :
    (extractGenericJobData docMetaOnly).company = ""
    ∧ extractCompanyFromPage docMetaOnly = "Acme"
    ∧ (extractGenericJobData docMetaOnly).company ≠ extractCompanyFromPage docMetaOnly := by
  refine ⟨by decide, by decide, by decide⟩

/-- **C5 amended**: the generic fallback extractor performs no secondary
company pass: whenever every class-name company selector fails, the
company field stays empty, whatever the page's meta tags or
employer/ARIA attributes would yield. -/
theorem C5_generic_company_no_fallback (doc : Document)
    (h : ∀ sel ∈ companySelectors, companyAccept doc sel = none) :
    (extractGenericJobData doc).company = "" := by
  have hc : companyLoop doc companySelectors = "" := companyLoop_eq_empty doc companySelectors h
  simp [extractGenericJobData, hc]

/-- Witness for the amended C5, at the counterexample page. -/
theorem C5_generic_company_no_fallback_witness :
    (extractGenericJobData docMetaOnly).company = "" :=
  C5_generic_company_no_fallback docMetaOnly (by decide)

/-- **C10**: on the registered-site path an empty selector-extracted
company falls back to `extractCompanyFromPage`; that function returns the
cleaned meta-tag value whenever the `og:site_name` / author / article
author chain is non-empty (at any length), otherwise scans the
company/employer/organization patterns accepting only text of length
strictly between 0 and 100 (cleaned), and returns `""` when nothing
matches. -/
theorem C10_registered_company_fallback :
    (∀ (doc : Document) (ss : SelectorSet), getSiteSelectors doc.hostname = some ss →
      cleanText (extractText doc ss.company) = "" →
      (extractJobData doc).company = extractCompanyFromPage doc)
    ∧ (∀ doc : Document, metaCompany doc ≠ "" →
        extractCompanyFromPage doc = cleanText (metaCompany doc))
    ∧ (∀ doc : Document, metaCompany doc = "" →
        extractCompanyFromPage doc = ((companyPatterns.findSome? (patternProbe doc)).getD ""))
    ∧ (∀ (doc : Document) (pat : String) (el : Element),
        doc.query pat = QueryResult.qfound el →
        ¬((patternText el).length > 0 ∧ (patternText el).length < 100) →
        patternProbe doc pat = none)
    ∧ (∀ (doc : Document) (pat : String) (el : Element),
        doc.query pat = QueryResult.qfound el →
        (patternText el).length > 0 → (patternText el).length < 100 →
        patternProbe doc pat = some (cleanText (patternText el))) := by
  refine ⟨fun doc ss h hc => ?_, fun doc hm => ?_, fun doc hm => ?_,
    fun doc pat el hq hlen => ?_, fun doc pat el hq h0 h100 => ?_⟩
  · by_cases hcp : extractCompanyFromPage doc = ""
    · simp [extractJobData, h, hc, hcp]
    · simp [extractJobData, h, hc, hcp]
  · simp [extractCompanyFromPage, hm]
  · simp [extractCompanyFromPage, hm, companyPatternLoop_eq_findSome]
  · simp [patternProbe, hq, hlen]
  · simp [patternProbe, hq, h0, h100]

/-- A meta element whose `content` is `" MetaCorp "` (needing cleaning). -/
def metaCorpElement : Element where
  innerText := none
  textContent := none
  content := some " MetaCorp "
  dataCompany := none

/-- A LinkedIn page whose company selectors all miss but whose author meta
tag names the company. -/
def docRegisteredMeta : Document where
  query := fun s =>
    if s = "meta[name=\"author\"]" then QueryResult.qfound metaCorpElement
    else QueryResult.qnull
  pdivs := []
  hostname := "careers.linkedin.com"
  href := "https://careers.linkedin.com/jobs/view/2"

/-- Witness for C10: on the registered path with an empty selector-drawn
company, the meta-tag fallback supplies the cleaned company name. -/
theorem C10_registered_company_fallback_witness :
    (extractJobData docRegisteredMeta).company = "MetaCorp" := by
  have h1 := C10_registered_company_fallback.1 docRegisteredMeta linkedinSelectors
    (by decide) (by decide)
  have h2 := C10_registered_company_fallback.2.1 docRegisteredMeta (by decide)
  rw [h1, h2]
  decide

/-! ### Lemmas for the idempotence of `cleanText`

The normalizer output contains, among whitespace, only single `' '`
characters with no two adjacent, and starts and ends with a non-glyph
character; on such strings every stage of `cleanText` is the identity. -/

theorem space_implies_glyph (c : Char) (h : isJsSpace c = true) : isSepGlyph c = true := by
  simp [isSepGlyph, h]

theorem cra_head_not (p : Char → Bool) (r : Char) :
    ∀ l : List Char, ∀ c ∈ (collapseRunsAux p r true l).head?, p c = false := by
  intro l
  induction l with
  | nil => intro c hc; simp [collapseRunsAux] at hc
  | cons a as ih =>
    intro c hc
    by_cases h : p a = true
    · rw [show collapseRunsAux p r true (a :: as) = collapseRunsAux p r true as from by
        simp [collapseRunsAux, h]] at hc
      exact ih c hc
    · rw [show collapseRunsAux p r true (a :: as) = a :: collapseRunsAux p r false as from by
        simp [collapseRunsAux, h]] at hc
      simp only [List.head?_cons, Option.mem_def, Option.some.injEq] at hc
      subst hc
      exact Bool.eq_false_iff.mpr h

theorem cra_mem (p : Char → Bool) (r : Char) :
    ∀ (l : List Char) (b : Bool) (c : Char),
      c ∈ collapseRunsAux p r b l → c = r ∨ p c = false := by
  intro l
  induction l with
  | nil => intro b c hc; simp [collapseRunsAux] at hc
  | cons a as ih =>
    intro b c hc
    by_cases h : p a = true
    · cases b with
      | true =>
        rw [show collapseRunsAux p r true (a :: as) = collapseRunsAux p r true as from by
          simp [collapseRunsAux, h]] at hc
        exact ih true c hc
      | false =>
        rw [show collapseRunsAux p r false (a :: as) = r :: collapseRunsAux p r true as from by
          simp [collapseRunsAux, h]] at hc
        rcases List.mem_cons.mp hc with hcr | htail
        · exact Or.inl hcr
        · exact ih true c htail
    · rw [show collapseRunsAux p r b (a :: as) = a :: collapseRunsAux p r false as from by
        simp [collapseRunsAux, h]] at hc
      rcases List.mem_cons.mp hc with hca | htail
      · subst hca
        exact Or.inr (Bool.eq_false_iff.mpr h)
      · exact ih false c htail

theorem cra_chain (p : Char → Bool) (r : Char) :
    ∀ (l : List Char) (b : Bool),
      List.Chain' (fun x y => ¬(p x = true ∧ p y = true)) (collapseRunsAux p r b l) := by
  intro l
  induction l with
  | nil => intro b; simp [collapseRunsAux]
  | cons a as ih =>
    intro b
    by_cases h : p a = true
    · cases b with
      | true =>
        rw [show collapseRunsAux p r true (a :: as) = collapseRunsAux p r true as from by
          simp [collapseRunsAux, h]]
        exact ih true
      | false =>
        rw [show collapseRunsAux p r false (a :: as) = r :: collapseRunsAux p r true as from by
          simp [collapseRunsAux, h]]
        rw [List.chain'_cons']
        refine ⟨fun y hy => ?_, ih true⟩
        rintro ⟨_, hpy⟩
        rw [cra_head_not p r as y hy] at hpy
        cases hpy
    · rw [show collapseRunsAux p r b (a :: as) = a :: collapseRunsAux p r false as from by
        simp [collapseRunsAux, h]]
      rw [List.chain'_cons']
      refine ⟨fun y hy => ?_, ih false⟩
      rintro ⟨hpa, _⟩
      exact h hpa

theorem cra_id_of_not (p : Char → Bool) (r : Char) :
    ∀ (l : List Char) (b : Bool), (∀ c ∈ l, p c = false) →
      collapseRunsAux p r b l = l := by
  intro l
  induction l with
  | nil => intro b _; rfl
  | cons a as ih =>
    intro b h
    have ha := h a (List.mem_cons_self a as)
    have hrest := ih false fun c hc => h c (List.mem_cons_of_mem a hc)
    simp [collapseRunsAux, ha, hrest]

theorem cra_true_eq_false (p : Char → Bool) (r : Char) (l : List Char)
    (h : ∀ c ∈ l.head?, p c = false) :
    collapseRunsAux p r true l = collapseRunsAux p r false l := by
  cases l with
  | nil => rfl
  | cons a as =>
    have ha := h a (by simp)
    simp [collapseRunsAux, ha]

theorem cra_id_norm (p : Char → Bool) (r : Char) :
    ∀ l : List Char, (∀ c ∈ l, p c = true → c = r) →
      List.Chain' (fun x y => ¬(p x = true ∧ p y = true)) l →
      collapseRunsAux p r false l = l := by
  intro l
  induction l with
  | nil => intro _ _; rfl
  | cons a as ih =>
    intro hmem hch
    rw [List.chain'_cons'] at hch
    obtain ⟨hhead, htail⟩ := hch
    have hrest := ih (fun c hc hpc => hmem c (List.mem_cons_of_mem a hc) hpc) htail
    by_cases h : p a = true
    · have ha : a = r := hmem a (List.mem_cons_self a as) h
      have hheadf : ∀ c ∈ as.head?, p c = false := by
        intro c hc
        cases hpc : p c with
        | false => rfl
        | true => exact absurd ⟨h, hpc⟩ (hhead c hc)
      rw [show collapseRunsAux p r false (a :: as) = r :: collapseRunsAux p r true as from by
        simp [collapseRunsAux, h]]
      rw [cra_true_eq_false p r as hheadf, hrest, ha]
    · rw [show collapseRunsAux p r false (a :: as) = a :: collapseRunsAux p r false as from by
        simp [collapseRunsAux, h]]
      rw [hrest]

theorem dropWhile_decomp (q : Char → Bool) (l : List Char) :
    ∃ t, t ++ l.dropWhile q = l := by
  induction l with
  | nil => exact ⟨[], rfl⟩
  | cons a as ih =>
    by_cases h : q a = true
    · obtain ⟨t, ht⟩ := ih
      exact ⟨a :: t, by simp [List.dropWhile_cons, h, ht]⟩
    · exact ⟨[], by simp [List.dropWhile_cons, h]⟩

theorem dropEnd_decomp (q : Char → Bool) (l : List Char) :
    ∃ t, dropEnd q l ++ t = l := by
  obtain ⟨t, ht⟩ := dropWhile_decomp q l.reverse
  refine ⟨t.reverse, ?_⟩
  have hrev := congrArg List.reverse ht
  simp only [List.reverse_append, List.reverse_reverse] at hrev
  simpa [dropEnd] using hrev

theorem mem_of_dropWhile (q : Char → Bool) (l : List Char) (c : Char)
    (h : c ∈ l.dropWhile q) : c ∈ l := by
  obtain ⟨t, ht⟩ := dropWhile_decomp q l
  rw [← ht]
  exact List.mem_append.mpr (Or.inr h)

theorem mem_of_dropEnd (q : Char → Bool) (l : List Char) (c : Char)
    (h : c ∈ dropEnd q l) : c ∈ l := by
  obtain ⟨t, ht⟩ := dropEnd_decomp q l
  rw [← ht]
  exact List.mem_append.mpr (Or.inl h)

theorem chain_of_dropWhile {R : Char → Char → Prop} (q : Char → Bool) (l : List Char)
    (h : List.Chain' R l) : List.Chain' R (l.dropWhile q) := by
  obtain ⟨t, ht⟩ := dropWhile_decomp q l
  rw [← ht] at h
  exact (List.chain'_append.mp h).2.1

theorem chain_of_reverse {R : Char → Char → Prop} (hsymm : ∀ a b, R a b → R b a)
    (l : List Char) (h : List.Chain' R l) : List.Chain' R l.reverse := by
  exact List.chain'_reverse.mpr (List.Chain'.imp (fun a b hab => hsymm a b hab) h)

theorem chain_of_dropEnd {R : Char → Char → Prop} (hsymm : ∀ a b, R a b → R b a)
    (q : Char → Bool) (l : List Char) (h : List.Chain' R l) :
    List.Chain' R (dropEnd q l) := by
  exact chain_of_reverse hsymm _ (chain_of_dropWhile q l.reverse (chain_of_reverse hsymm l h))

theorem head_dropWhile_not (q : Char → Bool) :
    ∀ l : List Char, ∀ c ∈ (l.dropWhile q).head?, q c = false := by
  intro l
  induction l with
  | nil => intro c hc; simp at hc
  | cons a as ih =>
    intro c hc
    by_cases h : q a = true
    · rw [List.dropWhile_cons, if_pos h] at hc
      exact ih c hc
    · rw [List.dropWhile_cons, if_neg h] at hc
      simp only [List.head?_cons, Option.mem_def, Option.some.injEq] at hc
      subst hc
      exact Bool.eq_false_iff.mpr h

theorem getLast_dropEnd_not (q : Char → Bool) (l : List Char) :
    ∀ c ∈ (dropEnd q l).getLast?, q c = false := by
  intro c hc
  unfold dropEnd at hc
  rw [List.getLast?_reverse] at hc
  exact head_dropWhile_not q l.reverse c hc

theorem head_of_dropEnd (q : Char → Bool) (l : List Char) (c : Char)
    (h : (dropEnd q l).head? = some c) : l.head? = some c := by
  obtain ⟨t, ht⟩ := dropEnd_decomp q l
  cases hd : dropEnd q l with
  | nil => rw [hd] at h; cases h
  | cons a u =>
    rw [hd] at h ht
    rw [show l = a :: (u ++ t) from by rw [← ht]; rfl]
    simpa using h

theorem dropWhile_id_of_head (q : Char → Bool) (l : List Char)
    (h : ∀ c ∈ l.head?, q c = false) : l.dropWhile q = l := by
  cases l with
  | nil => rfl
  | cons a as =>
    have ha := h a (by simp)
    rw [List.dropWhile_cons, if_neg (by simp [ha])]

theorem dropEnd_id_of_getLast (q : Char → Bool) (l : List Char)
    (h : ∀ c ∈ l.getLast?, q c = false) : dropEnd q l = l := by
  unfold dropEnd
  rw [dropWhile_id_of_head q l.reverse (by intro c hc; rw [List.head?_reverse] at hc; exact h c hc)]
  exact List.reverse_reverse l

theorem jsTrim_id_of_glyph (l : List Char)
    (h3 : ∀ c ∈ l.head?, isSepGlyph c = false)
    (h4 : ∀ c ∈ l.getLast?, isSepGlyph c = false) :
    jsTrim (String.mk l) = String.mk l := by
  have hhead : ∀ c ∈ l.head?, isJsSpace c = false := by
    intro c hc
    cases hsp : isJsSpace c with
    | false => rfl
    | true =>
      have hg := h3 c hc
      rw [space_implies_glyph c hsp] at hg
      cases hg
  have hlast : ∀ c ∈ l.getLast?, isJsSpace c = false := by
    intro c hc
    cases hsp : isJsSpace c with
    | false => rfl
    | true =>
      have hg := h4 c hc
      rw [space_implies_glyph c hsp] at hg
      cases hg
  show String.mk (dropEnd isJsSpace ((String.mk l).toList.dropWhile isJsSpace)) = String.mk l
  rw [show (String.mk l).toList = l from rfl]
  rw [dropWhile_id_of_head isJsSpace l hhead, dropEnd_id_of_getLast isJsSpace l hlast]

/-- The character list produced by the four replacement stages of
`cleanText` (before the final `trim`). -/
def cleanCore (s : String) : List Char :=
  dropEnd isSepGlyph
    ((collapseRunsAux isJsSpace ' ' false
      (collapseRunsAux (fun c => c == '\n') ' ' false s.toList)).dropWhile isSepGlyph)

theorem cleanCore_head (s : String) :
    ∀ c ∈ (cleanCore s).head?, isSepGlyph c = false := by
  intro c hc
  have hm := head_of_dropEnd isSepGlyph _ c hc
  exact head_dropWhile_not isSepGlyph _ c hm

theorem cleanCore_last (s : String) :
    ∀ c ∈ (cleanCore s).getLast?, isSepGlyph c = false :=
  getLast_dropEnd_not isSepGlyph _

theorem cleanCore_mem (s : String) :
    ∀ c ∈ cleanCore s, isJsSpace c = true → c = ' ' := by
  intro c hc hsp
  have h1 := mem_of_dropEnd _ _ _ hc
  have h2 := mem_of_dropWhile _ _ _ h1
  rcases cra_mem isJsSpace ' ' _ false c h2 with h | h
  · exact h
  · rw [hsp] at h
    cases h

theorem cleanCore_chain (s : String) :
    List.Chain'
      (fun x y => ¬(isJsSpace x = true ∧ isJsSpace y = true)) (cleanCore s) := by
  have hsymm : ∀ a b : Char,
      ¬(isJsSpace a = true ∧ isJsSpace b = true) →
      ¬(isJsSpace b = true ∧ isJsSpace a = true) :=
    fun a b h hab => h ⟨hab.2, hab.1⟩
  exact chain_of_dropEnd hsymm _ _
    (chain_of_dropWhile _ _ (cra_chain isJsSpace ' ' _ false))

theorem cleanText_of_ne (l : List Char) (hne : String.mk l ≠ "") :
    cleanText (String.mk l) =
      jsTrim (String.mk (dropEnd isSepGlyph
        ((collapseRunsAux isJsSpace ' ' false
          (collapseRunsAux (fun c => c == '\n') ' ' false l)).dropWhile isSepGlyph))) := by
  unfold cleanText
  rw [if_neg hne]
  rfl

theorem cleanText_eq_core (s : String) (hs : s ≠ "") :
    cleanText s = String.mk (cleanCore s) := by
  cases s with
  | mk data =>
    rw [cleanText_of_ne data hs]
    exact jsTrim_id_of_glyph (cleanCore (String.mk data)) (cleanCore_head _) (cleanCore_last _)

theorem cleanText_fixed (l : List Char)
    (h1 : ∀ c ∈ l, isJsSpace c = true → c = ' ')
    (h2 : List.Chain' (fun x y => ¬(isJsSpace x = true ∧ isJsSpace y = true)) l)
    (h3 : ∀ c ∈ l.head?, isSepGlyph c = false)
    (h4 : ∀ c ∈ l.getLast?, isSepGlyph c = false) :
    cleanText (String.mk l) = String.mk l := by
  cases l with
  | nil => rfl
  | cons a as =>
    have hne : String.mk (a :: as) ≠ "" := by
      intro hcontra
      have hdata : a :: as = [] := congrArg String.data hcontra
      cases hdata
    rw [cleanText_of_ne (a :: as) hne]
    have hnonl : ∀ c ∈ a :: as, (c == '\n') = false := by
      intro c hc
      cases hb : (c == '\n') with
      | false => rfl
      | true =>
        have hcn : c = '\n' := by simpa using hb
        subst hcn
        have := h1 '\n' hc (by decide)
        exact absurd this (by decide)
    rw [cra_id_of_not (fun c => c == '\n') ' ' (a :: as) false hnonl]
    rw [cra_id_norm isJsSpace ' ' (a :: as) h1 h2]
    rw [dropWhile_id_of_head isSepGlyph (a :: as) h3]
    rw [dropEnd_id_of_getLast isSepGlyph (a :: as) h4]
    exact jsTrim_id_of_glyph (a :: as) h3 h4

/-- **C4**: the text normalizer `cleanText` is idempotent. -/
theorem C4_cleanText_idempotent : ∀ s : String, cleanText (cleanText s) = cleanText s := by
  intro s
  by_cases hs : s = ""
  · subst hs
    rfl
  · rw [cleanText_eq_core s hs]
    exact cleanText_fixed (cleanCore s) (cleanCore_mem s) (cleanCore_chain s)
      (cleanCore_head s) (cleanCore_last s)

end CoverAI
